import Mathlib

/-!
Verification development for the `cmd.toml` schema module of a snapshot
test harness for command-line programs (`src/schema.rs`).

The Rust data types and functions are shallowly embedded as executable Lean
definitions.  External effects (the filesystem, process spawning, the TOML
deserializer) are passed in as explicit oracle parameters; the logic of the
repository's own functions is translated directly from the source.
-/

set_option autoImplicit false

namespace Snapbox

/-- The single-quote character, written via its code point. -/
def squote : Char := Char.ofNat 39

/-- The backtick character, written via its code point. -/
def bquote : Char := Char.ofNat 96

/-- A one-character string holding a single quote. -/
def sq : String := String.mk [squote]

/-! ## Generic string helpers (models of `str` methods used by the source) -/

/-- Model of `str::strip_prefix` on character lists: `some` of the remainder
when the first list is a prefix of the second. -/
def chopPreCh : List Char → List Char → Option (List Char)
  | [], s => some s
  | _ :: _, [] => none
  | p :: ps, c :: cs => if p = c then chopPreCh ps cs else none

/-- Model of `str::strip_prefix`. -/
def chopPre (pre s : String) : Option String :=
  (chopPreCh pre.data s.data).map String.mk

/-- ASCII whitespace recognized by the tokenizer model and by `trim`. -/
def isRustWs (c : Char) : Bool :=
  c = ' ' || c = '\t' || c = '\n' || c = '\r'

/-- Drop leading whitespace from a character list. -/
def trimL : List Char → List Char
  | [] => []
  | c :: cs => if isRustWs c then trimL cs else c :: cs

/-- Model of `str::trim`: drop whitespace from both ends. -/
def rustTrim (s : String) : String :=
  String.mk (trimL ((trimL s.data.reverse).reverse))

/-- Model of `str::split_once('=')` on character lists: split at the first
`=`, returning the parts before and after it. -/
def splitOnceCh : List Char → Option (List Char × List Char)
  | [] => none
  | c :: cs =>
    if c = '=' then some ([], cs)
    else (splitOnceCh cs).map (fun p => (c :: p.1, p.2))

/-- Model of `str::split_once('=')`. -/
def splitOnceEq (t : String) : Option (String × String) :=
  (splitOnceCh t.data).map (fun p => (String.mk p.1, String.mk p.2))

/-! ## Model of the `shlex` crate (version 1.x), used by the source for
POSIX-style shell word splitting (`shlex::Shlex`) and quoting
(`shlex::quote` / `shlex::join`). -/

/-- Whitespace that separates words in `shlex` splitting
(space, tab, newline — exactly the set used by `Shlex::next`). -/
def isShWs (c : Char) : Bool :=
  c = ' ' || c = '\t' || c = '\n'

/-- State of the `shlex` word splitter:
between words, inside a comment, inside a word, after a backslash inside a
word, inside single quotes, inside double quotes, after a backslash inside
double quotes.  `acc` is the current word accumulated in reverse. -/
inductive ShState where
  | delim
  | comment
  | word (acc : List Char)
  | wordEsc (acc : List Char)
  | single (acc : List Char)
  | double (acc : List Char)
  | doubleEsc (acc : List Char)
deriving DecidableEq

/-- One step of the `shlex` splitter: consume one character, possibly
emitting a completed word.  Transcribes `Shlex::next` / `parse_word` /
`parse_single` / `parse_double` of the `shlex` crate. -/
def shStep : ShState → Char → ShState × Option (List Char)
  | .delim, c =>
    if isShWs c then (.delim, none)
    else if c = '#' then (.comment, none)
    else if c = squote then (.single [], none)
    else if c = '"' then (.double [], none)
    else if c = '\\' then (.wordEsc [], none)
    else (.word [c], none)
  | .comment, c => if c = '\n' then (.delim, none) else (.comment, none)
  | .word acc, c =>
    if isShWs c then (.delim, some acc.reverse)
    else if c = squote then (.single acc, none)
    else if c = '"' then (.double acc, none)
    else if c = '\\' then (.wordEsc acc, none)
    else (.word (c :: acc), none)
  | .wordEsc acc, c =>
    if c = '\n' then (.word acc, none) else (.word (c :: acc), none)
  | .single acc, c =>
    if c = squote then (.word acc, none) else (.single (c :: acc), none)
  | .double acc, c =>
    if c = '"' then (.word acc, none)
    else if c = '\\' then (.doubleEsc acc, none)
    else (.double (c :: acc), none)
  | .doubleEsc acc, c =>
    if c = '$' || c = bquote || c = '"' || c = '\\' then (.double (c :: acc), none)
    else if c = '\n' then (.double acc, none)
    else (.double (c :: '\\' :: acc), none)

/-- End of input: a word in progress is emitted; an unterminated quote or a
trailing backslash is an error in `shlex`, which drops the partial word
(the iterator's consumers in the source ignore the error flag). -/
def shFinish : ShState → Option (List Char)
  | .word acc => some acc.reverse
  | _ => none

/-- Run the splitter over a character list, collecting the emitted words. -/
def shSplitGo : ShState → List Char → List (List Char)
  | st, [] =>
    match shFinish st with
    | some w => [w]
    | none => []
  | st, c :: cs =>
    match shStep st c with
    | (st', some w) => w :: shSplitGo st' cs
    | (st', none) => shSplitGo st' cs

/-- Model of collecting the `shlex::Shlex` iterator over a string. -/
def shlexSplit (s : String) : List String :=
  (shSplitGo .delim s.data).map String.mk

/-- Run the splitter over a chunk of input, returning the final state and
the words emitted along the way (a compositional view of `shSplitGo`). -/
def shConsume : ShState → List Char → ShState × List (List Char)
  | st, [] => (st, [])
  | st, c :: cs =>
    match shStep st c with
    | (st', some w) =>
      let r := shConsume st' cs
      (r.1, w :: r.2)
    | (st', none) => shConsume st' cs

/-- Characters that force `shlex::quote` to quote a word. -/
def quoteTrigger (c : Char) : Bool :=
  c = '|' || c = '&' || c = ';' || c = '<' || c = '>' || c = '(' || c = ')' ||
  c = '$' || c = bquote || c = '\\' || c = '"' || c = squote || c = ' ' ||
  c = '\t' || c = '\r' || c = '\n' || c = '*' || c = '?' || c = '[' ||
  c = '#' || c = '~' || c = '=' || c = '%'

/-- Characters that `shlex::quote` escapes with a backslash inside double
quotes. -/
def dquoteEsc (c : Char) : Bool :=
  c = '$' || c = bquote || c = '"' || c = '\\'

/-- Model of `shlex::quote` on a word's characters: the empty word becomes
`""`; a word containing a trigger character is wrapped in double quotes with
`$`, backtick, `"` and `\` backslash-escaped; any other word is unchanged. -/
def quoteChars (w : List Char) : List Char :=
  if w = [] then ['"', '"']
  else if w.any quoteTrigger then
    '"' :: (w.flatMap (fun c => if dquoteEsc c then ['\\', c] else [c])) ++ ['"']
  else w

/-- Model of `shlex::join` on character lists: quoted words separated by
single spaces. -/
def joinChars : List (List Char) → List Char
  | [] => []
  | [w] => quoteChars w
  | w :: ws => quoteChars w ++ ' ' :: joinChars ws

/-- Model of `shlex::join`. -/
def shlexJoin (ws : List String) : String :=
  String.mk (joinChars (ws.map String.data))

/-! ## Paths

Model of `std::path::PathBuf`: an absolute-path flag plus a list of
components.  The path methods used by the source (`extension`,
`with_extension`, `parent`, `join`, `strip_prefix`, `display`) are
translated below. -/

structure FsPath where
  absolute : Bool := false
  components : List String := []
deriving DecidableEq

/-- Split a file name into stem and extension, per Rust's rule: the
extension is what follows the last `.`; a name with no `.`, or whose only
`.` is the leading character (a hidden file), has no extension. -/
def splitName (name : String) : String × Option String :=
  go name.data.reverse
where
  /-- Walk the reversed name looking for the last dot; a dot found with
  nothing before it in the original name (`rest = []`) does not count. -/
  go : List Char → String × Option String
    | [] => (name, none)
    | c :: rest =>
      if c = '.' then
        if rest = [] then (name, none)
        else (String.mk rest.reverse, some (String.mk (chopLen name.data rest.length)))
      else go rest
  /-- Drop `n + 1` characters (the stem and the dot) from the front. -/
  chopLen (l : List Char) (n : Nat) : List Char := l.drop (n + 1)

/-- Model of `Path::extension`. -/
def FsPath.extension (p : FsPath) : Option String :=
  match p.components.getLast? with
  | none => none
  | some name => (splitName name).2

/-- Model of `Path::with_extension`: replace (or append) the extension of
the final component. -/
def FsPath.withExtension (p : FsPath) (ext : String) : FsPath :=
  match p.components.getLast? with
  | none => p
  | some name =>
    { p with components := p.components.dropLast ++ [(splitName name).1 ++ "." ++ ext] }

/-- Model of `Path::parent`: drop the final component. -/
def FsPath.parent (p : FsPath) : Option FsPath :=
  match p.components with
  | [] => none
  | _ :: _ => some { p with components := p.components.dropLast }

/-- Model of `Path::join`: an absolute right operand replaces the left. -/
def FsPath.join (p q : FsPath) : FsPath :=
  if q.absolute then q else { p with components := p.components ++ q.components }

/-- Component-list helper for `Path::strip_prefix`: remove `base` from the
front of `cs`. -/
def dropBase : List String → List String → Option (List String)
  | [], cs => some cs
  | _ :: _, [] => none
  | b :: bs, c :: cs => if b = c then dropBase bs cs else none

/-- Model of `Path::strip_prefix` (`cwd.strip_prefix(base)`): succeeds
exactly when `base` is a component-wise prefix of `p` (with matching
absoluteness), yielding the relative remainder. -/
def FsPath.relativeTo (p base : FsPath) : Option FsPath :=
  if p.absolute = base.absolute then
    (dropBase base.components p.components).map (fun rest => ⟨false, rest⟩)
  else none

/-- Model of `Path::display`. -/
def FsPath.display (p : FsPath) : String :=
  (if p.absolute then "/" else "") ++ String.intercalate "/" p.components

/-! ## Expected status -/

/-- `CommandStatus` from the source: the expected exit status of a case. -/
inductive CommandStatus where
  | success
  | failed
  | interrupted
  | skipped
  | code (n : Int)
deriving DecidableEq

/-- Digit-list value for the integer parser; `none` when empty or when a
non-digit occurs. -/
def digitsVal : List Char → Option Nat
  | [] => none
  | [c] => if c.isDigit then some (c.toNat - 48) else none
  | c :: cs =>
    if c.isDigit then (digitsVal cs).map (fun n => (c.toNat - 48) * 10 ^ cs.length + n)
    else none

/-- Model of `str::parse::<i32>`: an optional sign followed by at least one
decimal digit, rejecting values outside the `i32` range. -/
def parseI32 (s : String) : Option Int :=
  match s.data with
  | '+' :: ds => (digitsVal ds).bind (fun n => if n ≤ 2147483647 then some (n : Int) else none)
  | '-' :: ds => (digitsVal ds).bind (fun n => if n ≤ 2147483648 then some (-(n : Int)) else none)
  | ds => (digitsVal ds).bind (fun n => if n ≤ 2147483647 then some (n : Int) else none)

/-- `CommandStatus::from_str` from the source: one of the four keywords, or
a base-10 `i32` exit code, else an error. -/
def CommandStatus.fromStr (s : String) : Except String CommandStatus :=
  if s = "success" then .ok .success
  else if s = "failed" then .ok .failed
  else if s = "interrupted" then .ok .interrupted
  else if s = "skipped" then .ok .skipped
  else
    match parseI32 s with
    | some n => .ok (.code n)
    | none => .error ("Expected an exit code, got " ++ s)

/-! ## Payload files -/

/-- Modelled from the spec: `crate::File` (not under `src/`), a payload
interpreted as text or raw bytes per the `binary` flag. -/
inductive File where
  | text (s : String)
  | binary (bytes : List Nat)
deriving DecidableEq

/-! ## Environment -/

/-- Ordered insert with replacement into a key-sorted association list:
the model of `BTreeMap::insert`. -/
def btInsert (k v : String) : List (String × String) → List (String × String)
  | [] => [(k, v)]
  | (k', v') :: rest =>
    match compare k k' with
    | .lt => (k, v) :: (k', v') :: rest
    | .eq => (k, v) :: rest
    | .gt => (k', v') :: btInsert k v rest

/-- Model of `BTreeMap::get`. -/
def btLookup (k : String) : List (String × String) → Option String
  | [] => none
  | (k', v') :: rest => if k = k' then some v' else btLookup k rest

/-- Model of `BTreeMap::extend`: insert every entry of `other`, replacing
values at keys that are already present. -/
def btExtend (m other : List (String × String)) : List (String × String) :=
  other.foldl (fun acc kv => btInsert kv.1 kv.2 acc) m

/-- `Env` from the source: inheritance flag, additions (a `BTreeMap`,
modeled as a key-sorted association list), removals. -/
structure Env where
  inherit : Option Bool := none
  add : List (String × String) := []
  remove : List String := []
deriving DecidableEq

/-- `Env::inherit()` from the source: the flag, defaulting to `true`. -/
def Env.inheritValue (e : Env) : Bool := e.inherit.getD true

/-- `Env::update` from the source: layer `other` (the default `Env`) under
`self` (the case `Env`).  Transcription note: the additions are merged with
`BTreeMap::extend`. -/
def Env.update (e other : Env) : Env :=
  { inherit := if e.inherit.isNone then other.inherit else e.inherit
    add := btExtend e.add other.add
    remove := e.remove ++ other.remove }

/-- Model of `Command::env_remove`’s effect on a child environment: drop
every binding of `k`. -/
def envRemoveVar (s : List (String × String)) (k : String) : List (String × String) :=
  match s with
  | [] => []
  | p :: rest => if p.1 = k then envRemoveVar rest k else p :: envRemoveVar rest k

/-- Model of `Command::env`’s effect on a child environment: set `k` to
`v`, replacing any existing binding. -/
def envSetVar (s : List (String × String)) (k v : String) : List (String × String) :=
  envRemoveVar s k ++ [(k, v)]

/-- `Env::apply` from the source, acting on the child environment that a
`std::process::Command` computes from its parent environment: clear the
inherited environment unless `inherit()`, remove every name in `remove`,
then set every pair of `add`. -/
def Env.apply (e : Env) (parent : List (String × String)) : List (String × String) :=
  let s := if e.inheritValue then parent else []
  let s := e.remove.foldl envRemoveVar s
  e.add.foldl (fun acc kv => envSetVar acc kv.1 kv.2) s

/-! ## Bin, Run, Filesystem -/

/-- `Bin` from the source: a resolved path, an unresolved name, or a
deferred error (whose `crate::Error` payload is modeled as its message). -/
inductive Bin where
  | path (p : FsPath)
  | name (n : String)
  | error (msg : String)
deriving DecidableEq

/-- `Run` from the source, with its `Default` field values. -/
structure Run where
  bin : Option Bin := none
  args : List String := []
  env : Env := {}
  stdin : Option File := none
  stderr_to_stdout : Bool := false
  status : Option CommandStatus := none
  expected_stdout : Option File := none
  expected_stderr : Option File := none
  binary : Bool := false
  timeout : Option Nat := none
deriving DecidableEq

/-- `Run::status` from the source: the expected status, defaulting to
`Success`. -/
def Run.effectiveStatus (r : Run) : CommandStatus := r.status.getD .success

/-- `Filesystem` from the source. -/
structure Filesystem where
  cwd : Option FsPath := none
  base : Option FsPath := none
  sandbox : Option Bool := none
deriving DecidableEq

/-- `Filesystem::rel_cwd` from the source: when both `cwd` and `base` are
set, `cwd` relative to `base` or a descriptive error; otherwise the empty
relative path. -/
def Filesystem.rel_cwd (fs : Filesystem) : Except String FsPath :=
  match fs.cwd, fs.base with
  | some origCwd, some origBase =>
    match origCwd.relativeTo origBase with
    | some rel => .ok rel
    | none =>
      .error ("fs.cwd (" ++ origCwd.display ++ ") must be within fs.base ("
        ++ origBase.display ++ ")")
  | _, _ => .ok ⟨false, []⟩

/-- `TryCmd` from the source. -/
structure TryCmd where
  run : Run := {}
  fs : Filesystem := {}
deriving DecidableEq

/-- The built command, as far as the schema layer populates it: program,
arguments, working directory, and the environment rules to apply. -/
structure Cmd where
  program : FsPath
  args : List String
  cwd : Option FsPath
  env : Env
deriving DecidableEq

/-- `Run::to_command` from the source, with disk lookup (`Path::exists`)
passed as an oracle: a resolved path that exists is accepted, every other
`bin` value is an error before any command is built. -/
def Run.to_command (r : Run) (disk : FsPath → Bool) (cwd : Option FsPath) :
    Except String Cmd :=
  match r.bin with
  | some (Bin.path p) =>
    if disk p then .ok { program := p, args := r.args, cwd := cwd, env := r.env }
    else .error ("Bin doesn" ++ sq ++ "t exist: " ++ p.display)
  | some (Bin.name n) => .error ("Unknown bin.name = " ++ n)
  | some (Bin.error msg) => .error msg
  | none => .error "No bin specified"

/-- `Run::to_output` from the source, with everything past command
construction (pipes, spawning, waiting) abstracted as a `spawn` oracle:
the command is built first and its error is propagated unchanged. -/
def Run.to_output {Out : Type} (r : Run) (spawn : Cmd → Except String Out)
    (disk : FsPath → Bool) (cwd : Option FsPath) : Except String Out :=
  (r.to_command disk cwd).bind spawn

/-! ## Structured fixtures (`cmd.toml`) -/

/-- `JoinedArgs` from the source. -/
structure JoinedArgs where
  inner : List String := []
deriving DecidableEq

/-- `JoinedArgs::to_string` from the source: render via `shlex::join`. -/
def JoinedArgs.toString (j : JoinedArgs) : String := shlexJoin j.inner

/-- `JoinedArgs::from_str` from the source: split via `shlex::Shlex`
(infallible). -/
def JoinedArgs.fromStr (s : String) : JoinedArgs := ⟨shlexSplit s⟩

/-- `Args` from the source. -/
inductive Args where
  | joined (j : JoinedArgs)
  | split (v : List String)
deriving DecidableEq

/-- `Args::into_vec` from the source. -/
def Args.intoVec : Args → List String
  | .joined j => j.inner
  | .split v => v

instance : Inhabited Args := ⟨.split []⟩

/-- `OneShot` from the source, with the field defaults produced by
`#[serde(default)]` when a structured fixture leaves a field unset. -/
structure OneShot where
  bin : Option Bin := none
  args : Args := .split []
  env : Env := {}
  stderr_to_stdout : Bool := false
  status : Option CommandStatus := none
  binary : Bool := false
  timeout : Option Nat := none
  fs : Filesystem := {}
deriving DecidableEq

/-- `impl From<OneShot> for TryCmd` from the source. -/
def TryCmd.fromOneShot (o : OneShot) : TryCmd :=
  { run :=
      { bin := o.bin
        args := o.args.intoVec
        env := o.env
        stdin := none
        stderr_to_stdout := o.stderr_to_stdout
        status := o.status
        expected_stdout := none
        expected_stderr := none
        binary := o.binary
        timeout := o.timeout }
    fs := o.fs }

/-! ## Compact script fixtures (`.trycmd`) -/

/-- Modelled from the spec: `crate::lines::LinesWithTerminator` (not under
`src/`), which splits a string into lines, each keeping its trailing
newline; a final fragment without a terminator is yielded as-is. -/
def linesWithTermCh : List Char → List Char → List String
  | acc, [] => if acc = [] then [] else [String.mk acc.reverse]
  | acc, c :: cs =>
    if c = '\n' then String.mk (acc.reverse ++ ['\n']) :: linesWithTermCh [] cs
    else linesWithTermCh (c :: acc) cs

/-- Modelled from the spec: split into lines keeping terminators. -/
def linesWithTerminator (s : String) : List String := linesWithTermCh [] s.data

/-- The `> ` continuation-line loop of `TryCmd::parse_trycmd`: extend the
token list while lines carry the continuation marker. -/
def takeCont (toks : List String) : List String → List String × List String
  | [] => (toks, [])
  | l :: ls =>
    match chopPre "> " l with
    | some raw => takeCont (toks ++ shlexSplit (rustTrim raw)) ls
    | none => (toks, l :: ls)

/-- The leading-assignment loop of `TryCmd::parse_trycmd`: consume
`NAME=VALUE` tokens into the environment additions until the first token
without `=`, which is the binary; an exhausted token list is an error. -/
def splitEnvBin (env : Env) : List String → Except String (Env × String × List String)
  | [] => .error "No bin specified"
  | tok :: rest =>
    match splitOnceEq tok with
    | some (k, v) => splitEnvBin { env with add := btInsert k v env.add } rest
    | none => .ok (env, tok, rest)

/-- Concatenation of the remaining lines into the expected-stdout text
(the `stdout.extend(lines)` step of `TryCmd::parse_trycmd`). -/
def concatStrs (ls : List String) : String :=
  String.mk (ls.flatMap String.data)

/-- `TryCmd::parse_trycmd` from the source, phrased over the line list
(the source collects `LinesWithTerminator` into a deque first). -/
def TryCmd.parseLines (lines : List String) : Except String TryCmd :=
  (match lines with
   | [] => Except.ok ([], ([] : List String))
   | l :: ls =>
     match chopPre "$ " l with
     | some raw => Except.ok (shlexSplit (rustTrim raw), ls)
     | none => Except.error ("Expected `$` line, got `" ++ l ++ "`")
  ).bind fun p1 =>
  let cont := takeCont p1.1 p1.2
  (match cont.2 with
   | [] => Except.ok (CommandStatus.success, ([] : List String))
   | l :: ls =>
     match chopPre "? " l with
     | some raw => (CommandStatus.fromStr (rustTrim raw)).map (fun st => (st, ls))
     | none => Except.ok (CommandStatus.success, l :: ls)
  ).bind fun p2 =>
  let stdout := concatStrs p2.2
  (splitEnvBin {} cont.1).map fun (res : Env × String × List String) =>
    { run :=
        { bin := some (Bin.name res.2.1)
          args := res.2.2
          env := res.1
          status := some p2.1
          stderr_to_stdout := true
          expected_stdout := some (File.text stdout) }
      fs := {} }

/-- `TryCmd::parse_trycmd` from the source. -/
def TryCmd.parse_trycmd (s : String) : Except String TryCmd :=
  TryCmd.parseLines (linesWithTerminator s)

/-! ## Loading fixtures -/

/-- The external world that `TryCmd::load` touches, as oracles: path
existence, text file reading, the TOML deserializer for `OneShot`, and
`crate::File::read_from` (modelled from the spec: read a sibling payload
as text or raw bytes per the `binary` flag). -/
structure World where
  pathExists : FsPath → Bool
  readFile : FsPath → Except String String
  parseToml : String → Except String OneShot
  readPayload : FsPath → Bool → Except String File

/-- The sibling-payload step of the `toml` branch of `TryCmd::load`: read
the payload when the sibling file exists. -/
def readOpt (w : World) (p : FsPath) (binary : Bool) : Except String (Option File) :=
  if w.pathExists p then (w.readPayload p binary).map some else .ok none

/-- The parsing half of `TryCmd::load`: dispatch on the fixture path's
extension, build the raw `TryCmd` (for `toml`, also attaching the sibling
`stdin`/`stdout`/`stderr` payloads). -/
def loadSeq (w : World) (path : FsPath) : Except String TryCmd :=
  match path.extension with
  | none => .error "No extension"
  | some ext =>
    if ext = "toml" then
      (w.readFile path).bind fun raw =>
      (w.parseToml raw).bind fun oneShot =>
      let seq := TryCmd.fromOneShot oneShot
      (readOpt w (path.withExtension "stdin") seq.run.binary).bind fun stdin =>
      (readOpt w (path.withExtension "stdout") seq.run.binary).bind fun stdout =>
      (readOpt w (path.withExtension "stderr") seq.run.binary).map fun stderr =>
        { seq with run :=
            { seq.run with stdin := stdin, expected_stdout := stdout,
                           expected_stderr := stderr } }
    else if ext = "trycmd" then
      (w.readFile path).bind TryCmd.parse_trycmd
    else .error ("Unsupported extension: " ++ ext)

/-- The filesystem-resolution tail of `TryCmd::load` (lines after parsing):
absolutize an explicit `cwd` against the fixture's parent directory,
default `base` to the existing `.in` sibling or to the `cwd`, default
`cwd` to `base`, default `sandbox` to whether the `.out` sibling exists. -/
def resolveFs (path : FsPath) (disk : FsPath → Bool) (fs : Filesystem) : Filesystem :=
  let fs :=
    match fs.cwd with
    | some cwd => { fs with cwd := some ((path.parent.getD ⟨false, ["."]⟩).join cwd) }
    | none => fs
  let fs :=
    if fs.base.isNone then
      let basePath := path.withExtension "in"
      if disk basePath then { fs with base := some basePath }
      else if fs.cwd.isSome then { fs with base := fs.cwd }
      else fs
    else fs
  let fs := if fs.cwd.isNone then { fs with cwd := fs.base } else fs
  if fs.sandbox.isNone then { fs with sandbox := some (disk (path.withExtension "out")) }
  else fs

/-- `TryCmd::load` from the source: parse, then resolve the filesystem
fields in place. -/
def TryCmd.load (w : World) (path : FsPath) : Except String TryCmd :=
  (loadSeq w path).map fun seq => { seq with fs := resolveFs path w.pathExists seq.fs }

/-! ## Theorems -/

/-! ### Lookup lemmas for the environment model -/

theorem btLookup_cons (k k' v' : String) (rest : List (String × String)) :
    btLookup k ((k', v') :: rest) = if k = k' then some v' else btLookup k rest := rfl

theorem btLookup_append (k : String) (a b : List (String × String)) :
    btLookup k (a ++ b) =
      match btLookup k a with
      | some v => some v
      | none => btLookup k b := by
  induction a with
  | nil => simp [btLookup]
  | cons p rest ih =>
    rcases p with ⟨k', v'⟩
    by_cases h : k = k' <;> simp [btLookup_cons, h, ih]

theorem btLookup_removeVar (k r : String) (s : List (String × String)) :
    btLookup k (envRemoveVar s r) = if k = r then none else btLookup k s := by
  induction s with
  | nil => simp [envRemoveVar, btLookup]
  | cons p rest ih =>
    rcases p with ⟨k', v'⟩
    by_cases h1 : k' = r <;> by_cases h2 : k = k' <;>
      simp_all [envRemoveVar, btLookup_cons]

theorem btLookup_setVar_self (k v : String) (s : List (String × String)) :
    btLookup k (envSetVar s k v) = some v := by
  rw [envSetVar, btLookup_append, btLookup_removeVar]
  simp [btLookup_cons]

theorem btLookup_setVar_ne {k k' : String} (h : k ≠ k') (v : String)
    (s : List (String × String)) :
    btLookup k (envSetVar s k' v) = btLookup k s := by
  rw [envSetVar, btLookup_append, btLookup_removeVar]
  cases hb : btLookup k s <;> simp [h, hb, btLookup_cons, btLookup]

theorem btLookup_foldSet_notMem {k : String} {l : List (String × String)}
    (h : k ∉ l.map Prod.fst) (s : List (String × String)) :
    btLookup k (l.foldl (fun acc kv => envSetVar acc kv.1 kv.2) s) = btLookup k s := by
  induction l generalizing s with
  | nil => rfl
  | cons p rest ih =>
    simp only [List.map_cons, List.mem_cons] at h
    push_neg at h
    rw [List.foldl_cons, ih h.2, btLookup_setVar_ne h.1]

theorem btLookup_foldSet_mem {k v : String} {l : List (String × String)}
    (hnd : (l.map Prod.fst).Nodup) (h : btLookup k l = some v)
    (s : List (String × String)) :
    btLookup k (l.foldl (fun acc kv => envSetVar acc kv.1 kv.2) s) = some v := by
  induction l generalizing s with
  | nil => simp [btLookup] at h
  | cons p rest ih =>
    rcases p with ⟨k', w⟩
    simp only [List.map_cons, List.nodup_cons] at hnd
    by_cases h2 : k = k'
    · subst h2
      rw [btLookup_cons, if_pos rfl] at h
      injection h with h
      subst h
      rw [List.foldl_cons, btLookup_foldSet_notMem hnd.1]
      exact btLookup_setVar_self _ _ _
    · rw [btLookup_cons, if_neg h2] at h
      rw [List.foldl_cons]
      exact ih hnd.2 h _

theorem btLookup_foldRemove (k : String) (rs : List String)
    (s : List (String × String)) :
    btLookup k (rs.foldl envRemoveVar s) = if k ∈ rs then none else btLookup k s := by
  induction rs generalizing s with
  | nil => simp
  | cons r rest ih =>
    rw [List.foldl_cons, ih]
    by_cases h1 : k ∈ rest <;> by_cases h2 : k = r <;>
      simp [h1, h2, btLookup_removeVar]

theorem notMem_of_btLookup_none {k : String} {l : List (String × String)}
    (h : btLookup k l = none) : k ∉ l.map Prod.fst := by
  induction l with
  | nil => simp
  | cons p rest ih =>
    rcases p with ⟨k', v'⟩
    rw [btLookup_cons] at h
    by_cases h2 : k = k'
    · simp [h2] at h
    · simp only [List.map_cons, List.mem_cons]
      push_neg
      exact ⟨h2, ih (by simpa [h2] using h)⟩

/-- C3: `Env::apply` — a default `Env` leaves the inherited environment
unchanged; `inherit=false` with `add={A:"1"}` yields exactly `{A:"1"}`;
additions are in force in the final environment (they are applied after
removals, so even names also listed in `remove` end up present); removed
names not re-added are absent; and with `inherit=false` the parent
environment is irrelevant (it is cleared first). -/
theorem env_apply_spec :
    (∀ parent, Env.apply {} parent = parent) ∧
    (∀ parent, Env.apply { inherit := some false, add := [("A", "1")] } parent
       = [("A", "1")]) ∧
    (∀ (e : Env) (parent : List (String × String)) (n v : String),
       (e.add.map Prod.fst).Nodup → btLookup n e.add = some v →
       btLookup n (e.apply parent) = some v) ∧
    (∀ (e : Env) (parent : List (String × String)) (n : String),
       n ∈ e.remove → btLookup n e.add = none →
       btLookup n (e.apply parent) = none) ∧
    (∀ (e : Env) (p₁ p₂ : List (String × String)), e.inherit = some false →
       e.apply p₁ = e.apply p₂) := by
  refine ⟨fun parent => rfl, fun parent => rfl, ?_, ?_, ?_⟩
  · intro e parent n v hnd h
    exact btLookup_foldSet_mem hnd h _
  · intro e parent n hr h
    unfold Env.apply
    rw [btLookup_foldSet_notMem (notMem_of_btLookup_none h), btLookup_foldRemove]
    simp [hr]
  · intro e p₁ p₂ h
    simp [Env.apply, Env.inheritValue, h]

/-- C3 witness: concrete parent environments for each conjunct. -/
theorem env_apply_spec_witness :
    Env.apply {} [("HOME", "/root")] = [("HOME", "/root")] ∧
    Env.apply { inherit := some false, add := [("A", "1")] } [("HOME", "/root")]
      = [("A", "1")] ∧
    btLookup "A" (Env.apply { inherit := some false, add := [("A", "1")], remove := ["A"] }
      [("HOME", "/root")]) = some "1" ∧
    btLookup "HOME" (Env.apply { remove := ["HOME"] } [("HOME", "/root")]) = none ∧
    Env.apply { inherit := some false } [("HOME", "/root")] = Env.apply { inherit := some false } [] :=
  ⟨env_apply_spec.1 _, env_apply_spec.2.1 _,
   env_apply_spec.2.2.1 { inherit := some false, add := [("A", "1")], remove := ["A"] }
     [("HOME", "/root")] "A" "1" (by decide) (by decide),
   env_apply_spec.2.2.2.1 { remove := ["HOME"] } [("HOME", "/root")] "HOME"
     (by decide) (by decide),
   env_apply_spec.2.2.2.2 { inherit := some false } [("HOME", "/root")] [] rfl⟩

/-! ### Reduction lemmas for `Except` -/

theorem exbind_ok {α β : Type} (a : α) (f : α → Except String β) :
    (Except.ok a : Except String α).bind f = f a := rfl

theorem exbind_error {α β : Type} (e : String) (f : α → Except String β) :
    (Except.error e : Except String α).bind f = Except.error e := rfl

theorem exmap_ok {α β : Type} (a : α) (f : α → β) :
    Except.map f (Except.ok a : Except String α) = Except.ok (f a) := rfl

theorem exmap_error {α β : Type} (e : String) (f : α → β) :
    Except.map f (Except.error e : Except String α) = Except.error e := rfl

/-! ### The leading-assignment loop (C4) -/

theorem splitOnceCh_isSome {l : List Char} : (splitOnceCh l).isSome ↔ '=' ∈ l := by
  induction l with
  | nil => simp [splitOnceCh]
  | cons c cs ih =>
    by_cases h : c = '='
    · simp [splitOnceCh, h]
    · simp [splitOnceCh, h, ih, Ne.symm h]

/-- C4: the leading-assignment loop of compact parsing — a token list made
entirely of `NAME=VALUE` tokens (or no tokens at all) fails with
`No bin specified`; otherwise every token containing `=` before the first
token without one is folded into the environment additions (split at the
first `=`), and that first `=`-free token becomes the binary with the
remaining tokens as arguments; a token counts as an assignment exactly when
it contains `=`; and the spec's concrete example parses to additions
`{KEY1, KEY2}` with binary name `cmd` (as an unresolved `Bin::Name`). -/
theorem split_env_bin_spec :
    (∀ t : String, (splitOnceEq t).isSome ↔ '=' ∈ t.data) ∧
    (∀ (env : Env) (toks : List String), (∀ t ∈ toks, (splitOnceEq t).isSome) →
       splitEnvBin env toks = .error "No bin specified") ∧
    (∀ (env : Env) (pre : List String) (tok : String) (post : List String),
       (∀ t ∈ pre, (splitOnceEq t).isSome) → splitOnceEq tok = none →
       splitEnvBin env (pre ++ tok :: post) =
         .ok (pre.foldl
               (fun e t =>
                 match splitOnceEq t with
                 | some kv => { e with add := btInsert kv.1 kv.2 e.add }
                 | none => e) env,
              tok, post)) ∧
    (TryCmd.parse_trycmd ("$ KEY1=VALUE1 KEY2=" ++ sq ++ "VALUE2 with space" ++ sq ++ " cmd")
      = .ok
        { run :=
            { bin := some (.name "cmd")
              env := { add := [("KEY1", "VALUE1"), ("KEY2", "VALUE2 with space")] }
              status := some .success
              stderr_to_stdout := true
              expected_stdout := some (.text "") }
          fs := {} }) := by
  refine ⟨?_, ?_, ?_, rfl⟩
  · intro t
    unfold splitOnceEq
    simp [splitOnceCh_isSome]
  · intro env toks h
    induction toks generalizing env with
    | nil => rfl
    | cons t ts ih =>
      obtain ⟨⟨k, v⟩, hkv⟩ := Option.isSome_iff_exists.mp (h t (List.mem_cons_self t ts))
      simp only [splitEnvBin, hkv]
      exact ih _ (fun x hx => h x (List.mem_cons_of_mem _ hx))
  · intro env pre tok post hpre htok
    induction pre generalizing env with
    | nil =>
      simp [splitEnvBin, htok]
    | cons t ts ih =>
      obtain ⟨⟨k, v⟩, hkv⟩ :=
        Option.isSome_iff_exists.mp (hpre t (List.mem_cons_self t ts))
      simp only [List.cons_append, splitEnvBin, hkv, List.foldl_cons]
      exact ih _ (fun x hx => hpre x (List.mem_cons_of_mem _ hx))

/-- C4 witness: the loop at concrete token lists. -/
theorem split_env_bin_spec_witness :
    splitEnvBin {} ["A=1", "B=2"] = .error "No bin specified" ∧
    splitEnvBin {} (["A=1", "B=2"] ++ "cmd" :: ["arg"]) =
      .ok ((["A=1", "B=2"] : List String).foldl
            (fun e t =>
              match splitOnceEq t with
              | some kv => { e with add := btInsert kv.1 kv.2 e.add }
              | none => e) {},
           "cmd", ["arg"]) :=
  ⟨split_env_bin_spec.2.1 {} ["A=1", "B=2"] (by decide),
   split_env_bin_spec.2.2.1 {} ["A=1", "B=2"] "cmd" ["arg"] (by decide) (by decide)⟩

/-! ### The status line and verbatim stdout (C5) -/

theorem string_mk_data (s : String) : String.mk s.data = s := rfl

theorem linesWithTermCh_flat :
    ∀ (cs acc : List Char),
      (linesWithTermCh acc cs).flatMap String.data = acc.reverse ++ cs := by
  intro cs
  induction cs with
  | nil =>
    intro acc
    by_cases h : acc = [] <;> simp [linesWithTermCh, h]
  | cons c cs ih =>
    intro acc
    by_cases h : c = '\n'
    · subst h
      simp [linesWithTermCh, ih]
    · simp [linesWithTermCh, h, ih]

/-- C5: compact parsing after the command lines — a first remaining line
`? token` (one that carries neither continuation marker) sets the expected
status to `CommandStatus::from_str` of the trimmed token, failing the whole
parse with that parser's error when the token is invalid; without such a
line the status stays `Success`; in either case every line after that
point goes verbatim (terminators included) into the expected stdout;
`from_str` accepts exactly the four keywords or a base-10 `i32`; and
splitting a string into terminator-keeping lines loses nothing. -/
theorem parse_status_and_stdout :
    (∀ (l raw : String) (rest : List String) (st : CommandStatus),
       chopPre "> " l = none → chopPre "? " l = some raw →
       CommandStatus.fromStr (rustTrim raw) = .ok st →
       TryCmd.parseLines ("$ cmd" :: l :: rest) = .ok
         { run :=
             { bin := some (.name "cmd"), status := some st, stderr_to_stdout := true
               expected_stdout := some (.text (concatStrs rest)) }
           fs := {} }) ∧
    (∀ (l raw : String) (rest : List String) (e : String),
       chopPre "> " l = none → chopPre "? " l = some raw →
       CommandStatus.fromStr (rustTrim raw) = .error e →
       TryCmd.parseLines ("$ cmd" :: l :: rest) = .error e) ∧
    (∀ (l : String) (rest : List String),
       chopPre "> " l = none → chopPre "? " l = none →
       TryCmd.parseLines ("$ cmd" :: l :: rest) = .ok
         { run :=
             { bin := some (.name "cmd"), status := some .success, stderr_to_stdout := true
               expected_stdout := some (.text (concatStrs (l :: rest))) }
           fs := {} }) ∧
    CommandStatus.fromStr "success" = .ok .success ∧
    CommandStatus.fromStr "failed" = .ok .failed ∧
    CommandStatus.fromStr "interrupted" = .ok .interrupted ∧
    CommandStatus.fromStr "skipped" = .ok .skipped ∧
    (∀ s : String, s ≠ "success" → s ≠ "failed" → s ≠ "interrupted" → s ≠ "skipped" →
       CommandStatus.fromStr s =
         match parseI32 s with
         | some n => .ok (.code n)
         | none => .error ("Expected an exit code, got " ++ s)) ∧
    (∀ s : String, concatStrs (linesWithTerminator s) = s) ∧
    (∀ s : String, TryCmd.parse_trycmd s = TryCmd.parseLines (linesWithTerminator s)) := by
  refine ⟨?_, ?_, ?_, rfl, rfl, rfl, rfl, ?_, ?_, fun s => rfl⟩
  · intro l raw rest st h1 h2 h3
    simp only [TryCmd.parseLines, takeCont,
      show chopPre "$ " "$ cmd" = some "cmd" from rfl,
      show shlexSplit (rustTrim "cmd") = ["cmd"] from rfl,
      show splitEnvBin {} ["cmd"] = Except.ok ({}, "cmd", ([] : List String)) from rfl,
      h1, h2, h3, exbind_ok, exbind_error, exmap_ok, exmap_error]
  · intro l raw rest e h1 h2 h3
    simp only [TryCmd.parseLines, takeCont,
      show chopPre "$ " "$ cmd" = some "cmd" from rfl,
      show shlexSplit (rustTrim "cmd") = ["cmd"] from rfl,
      h1, h2, h3, exbind_ok, exbind_error, exmap_ok, exmap_error]
  · intro l rest h1 h2
    simp only [TryCmd.parseLines, takeCont,
      show chopPre "$ " "$ cmd" = some "cmd" from rfl,
      show shlexSplit (rustTrim "cmd") = ["cmd"] from rfl,
      show splitEnvBin {} ["cmd"] = Except.ok ({}, "cmd", ([] : List String)) from rfl,
      h1, h2, exbind_ok, exbind_error, exmap_ok, exmap_error]
  · intro s h1 h2 h3 h4
    simp [CommandStatus.fromStr, h1, h2, h3, h4]
  · intro s
    rw [concatStrs, linesWithTerminator, linesWithTermCh_flat]
    exact string_mk_data s

/-- C5 witness: concrete status lines — valid keyword, invalid token, and
no status line at all. -/
theorem parse_status_and_stdout_witness :
    TryCmd.parseLines ["$ cmd", "? skipped"] = .ok
      { run :=
          { bin := some (.name "cmd"), status := some .skipped, stderr_to_stdout := true
            expected_stdout := some (.text (concatStrs [])) }
        fs := {} } ∧
    TryCmd.parseLines ["$ cmd", "? banana"] =
      .error ("Expected an exit code, got banana") ∧
    TryCmd.parseLines ["$ cmd", "Hello World"] = .ok
      { run :=
          { bin := some (.name "cmd"), status := some .success, stderr_to_stdout := true
            expected_stdout := some (.text (concatStrs ["Hello World"])) }
        fs := {} } ∧
    CommandStatus.fromStr "-1" =
      match parseI32 "-1" with
      | some n => .ok (.code n)
      | none => .error ("Expected an exit code, got " ++ "-1") :=
  ⟨parse_status_and_stdout.1 "? skipped" "skipped" [] .skipped rfl rfl rfl,
   parse_status_and_stdout.2.1 "? banana" "banana" [] "Expected an exit code, got banana"
     rfl rfl rfl,
   parse_status_and_stdout.2.2.1 "Hello World" [] rfl rfl,
   parse_status_and_stdout.2.2.2.2.2.2.2.1 "-1" (by decide) (by decide) (by decide) (by decide)⟩

/-! ### Path strip lemma for `rel_cwd` -/

theorem dropBase_eq_some {bs : List String} :
    ∀ {cs rest : List String}, dropBase bs cs = some rest ↔ cs = bs ++ rest := by
  induction bs with
  | nil =>
    intro cs rest
    simp [dropBase]
  | cons b bs ih =>
    intro cs rest
    cases cs with
    | nil => simp [dropBase]
    | cons c cs =>
      by_cases h : b = c
      · subst h
        simp [dropBase, ih]
      · simp [dropBase, h, Ne.symm h]

/-- C7: `Filesystem::rel_cwd` — when both `cwd` and `base` are set it
returns `cwd` stripped of the `base` (which succeeds exactly when `base`
is a path prefix of `cwd`, i.e. `cwd` is a descendant), it errors with the
descriptive message exactly when `cwd` is not such a descendant, and when
either field is unset it returns the empty relative path without error. -/
theorem rel_cwd_spec :
    (∀ (fs : Filesystem) (c b rel : FsPath), fs.cwd = some c → fs.base = some b →
       c.relativeTo b = some rel → fs.rel_cwd = .ok rel) ∧
    (∀ (fs : Filesystem) (c b : FsPath), fs.cwd = some c → fs.base = some b →
       c.relativeTo b = none →
       fs.rel_cwd = .error ("fs.cwd (" ++ c.display ++ ") must be within fs.base ("
         ++ b.display ++ ")")) ∧
    (∀ fs : Filesystem, fs.cwd = none ∨ fs.base = none → fs.rel_cwd = .ok ⟨false, []⟩) ∧
    (∀ c b rel : FsPath, c.relativeTo b = some rel ↔
       (c.absolute = b.absolute ∧ rel.absolute = false ∧
        c.components = b.components ++ rel.components)) ∧
    (Filesystem.rel_cwd
       { cwd := some ⟨true, ["f", "case.in", "sub"]⟩, base := some ⟨true, ["f", "case.in"]⟩ }
       = .ok ⟨false, ["sub"]⟩) := by
  refine ⟨?_, ?_, ?_, ?_, rfl⟩
  · intro fs c b rel hc hb h
    simp [Filesystem.rel_cwd, hc, hb, h]
  · intro fs c b hc hb h
    simp [Filesystem.rel_cwd, hc, hb, h]
  · intro fs h
    rcases fs with ⟨cwd, base, sandbox⟩
    rcases h with h | h
    · obtain rfl : cwd = none := h
      cases base <;> rfl
    · obtain rfl : base = none := h
      cases cwd <;> rfl
  · intro c b rel
    rcases rel with ⟨ra, rc⟩
    unfold FsPath.relativeTo
    by_cases habs : c.absolute = b.absolute
    · rw [if_pos habs]
      cases hdb : dropBase b.components c.components with
      | none =>
        simp only [Option.map_none']
        constructor
        · intro h
          exact Option.noConfusion h
        · rintro ⟨-, -, hcomp⟩
          have h3 := dropBase_eq_some.mpr hcomp
          rw [hdb] at h3
          exact Option.noConfusion h3
      | some rest =>
        have hcs : c.components = b.components ++ rest := dropBase_eq_some.mp hdb
        simp only [Option.map_some', Option.some.injEq, FsPath.mk.injEq, habs, true_and]
        constructor
        · rintro ⟨h1, h2⟩
          exact ⟨h1.symm, by rw [hcs, h2]⟩
        · rintro ⟨h1, h2⟩
          have h3 := dropBase_eq_some.mpr h2
          rw [hdb] at h3
          injection h3 with h3
          exact ⟨h1.symm, h3⟩
    · rw [if_neg habs]
      constructor
      · intro h
        exact Option.noConfusion h
      · rintro ⟨h1, -, -⟩
        exact absurd h1 habs

/-- C7 witness: the spec's concrete example, and a cwd outside the base. -/
theorem rel_cwd_spec_witness :
    Filesystem.rel_cwd
        { cwd := some ⟨true, ["f", "case.in", "sub"]⟩, base := some ⟨true, ["f", "case.in"]⟩ }
      = .ok ⟨false, ["sub"]⟩ ∧
    Filesystem.rel_cwd
        { cwd := some ⟨true, ["elsewhere"]⟩, base := some ⟨true, ["f", "case.in"]⟩ }
      = .error ("fs.cwd (" ++ FsPath.display ⟨true, ["elsewhere"]⟩
          ++ ") must be within fs.base (" ++ FsPath.display ⟨true, ["f", "case.in"]⟩ ++ ")") ∧
    Filesystem.rel_cwd { cwd := some ⟨true, ["f"]⟩ } = .ok ⟨false, []⟩ :=
  ⟨rel_cwd_spec.1 _ ⟨true, ["f", "case.in", "sub"]⟩ ⟨true, ["f", "case.in"]⟩
     ⟨false, ["sub"]⟩ rfl rfl (by decide),
   rel_cwd_spec.2.1 _ ⟨true, ["elsewhere"]⟩ ⟨true, ["f", "case.in"]⟩ rfl rfl (by decide),
   rel_cwd_spec.2.2.1 { cwd := some ⟨true, ["f"]⟩ } (Or.inr rfl)⟩

/-- C1: evaluation of `Env::update` at the failing input.  Layering the
default `Env` (with `add = {K: "2"}`) under the case `Env` (with
`add = {K: "1"}`) is done with `BTreeMap::extend`, so the default's entry
*overwrites* the case's pre-existing binding of `K`, contradicting the
never-overwrite merge rule. -/
theorem env_update_overwrites_case_key :
    (Env.update { add := [("K", "1")] } { add := [("K", "2")] }).add = [("K", "2")] ∧
    btLookup "K" (Env.update { add := [("K", "1")] } { add := [("K", "2")] }).add
      = some "2" ∧
    btLookup "K" (Env.add { add := [("K", "1")] }) = some "1" :=
  ⟨rfl, rfl, rfl⟩

/-- C2 (counterexample): a structured fixture leaving every field unset and
the compact fixture `$ cmd` do *not* agree on the merge-stderr flag: the
structured default is `false`, the compact front-end sets `true`. -/
theorem stderr_default_differs_across_syntaxes :
    Except.map (fun t : TryCmd => t.run.stderr_to_stdout) (TryCmd.parse_trycmd "$ cmd")
      = .ok true ∧
    (TryCmd.fromOneShot {}).run.stderr_to_stdout = false ∧
    ¬ Except.map (fun t : TryCmd => t.run.stderr_to_stdout) (TryCmd.parse_trycmd "$ cmd")
        = .ok (TryCmd.fromOneShot {}).run.stderr_to_stdout := by
  refine ⟨rfl, rfl, fun h => ?_⟩
  have h' : true = false := by
    have := Except.ok.inj h
    exact this
  exact Bool.noConfusion h'

/-- C2 (amended): the two front-ends agree on the default *effective
status* (`Success`), but the merge-stderr defaults differ: `false` for a
structured fixture leaving `stderr-to-stdout` unset, `true` for a compact
fixture. -/
theorem default_status_stable_stderr_flag_differs :
    (TryCmd.fromOneShot {}).run.status = none ∧
    (TryCmd.fromOneShot {}).run.effectiveStatus = .success ∧
    Except.map (fun t : TryCmd => t.run.effectiveStatus) (TryCmd.parse_trycmd "$ cmd")
      = .ok .success ∧
    (TryCmd.fromOneShot {}).run.stderr_to_stdout = false ∧
    Except.map (fun t : TryCmd => t.run.stderr_to_stdout) (TryCmd.parse_trycmd "$ cmd")
      = .ok true :=
  ⟨rfl, rfl, rfl, rfl, rfl⟩

/-- C6: `Run::to_command` fails before any command is built whenever the
binary is not a usable resolved path — `Unknown bin.name` for an
unresolved name (for every disk oracle, i.e. no lookup of its own), the
carried message for a deferred error, and a `doesn't exist` message for a
resolved path absent from disk — and `Run::to_output` propagates such a
failure without consulting the spawner. -/
theorem to_command_prespawn_failures :
    (∀ (r : Run) (disk : FsPath → Bool) (cwd : Option FsPath) (n : String),
       r.bin = some (Bin.name n) →
       r.to_command disk cwd = .error ("Unknown bin.name = " ++ n)) ∧
    (∀ (r : Run) (disk : FsPath → Bool) (cwd : Option FsPath) (msg : String),
       r.bin = some (Bin.error msg) → r.to_command disk cwd = .error msg) ∧
    (∀ (r : Run) (disk : FsPath → Bool) (cwd : Option FsPath) (p : FsPath),
       r.bin = some (Bin.path p) → disk p = false →
       r.to_command disk cwd = .error ("Bin doesn" ++ sq ++ "t exist: " ++ p.display)) ∧
    (∀ (Out : Type) (r : Run) (spawn : Cmd → Except String Out)
       (disk : FsPath → Bool) (cwd : Option FsPath) (e : String),
       r.to_command disk cwd = .error e → r.to_output spawn disk cwd = .error e) := by
  refine ⟨?_, ?_, ?_, ?_⟩
  · intro r disk cwd n h
    simp [Run.to_command, h]
  · intro r disk cwd msg h
    simp [Run.to_command, h]
  · intro r disk cwd p h hd
    simp [Run.to_command, h, hd]
  · intro Out r spawn disk cwd e h
    simp [Run.to_output, h, Except.bind]

/-- C6 witness: concrete failing runs for each variant. -/
theorem to_command_prespawn_failures_witness :
    ({ bin := some (Bin.name "foo") } : Run).to_command (fun _ => true) none
      = .error "Unknown bin.name = foo" ∧
    ({ bin := some (Bin.error "boom") } : Run).to_command (fun _ => true) none
      = .error "boom" ∧
    ({ bin := some (Bin.path ⟨true, ["bin", "foo"]⟩) } : Run).to_command (fun _ => false) none
      = .error ("Bin doesn" ++ sq ++ "t exist: /bin/foo") ∧
    ({ bin := some (Bin.name "foo") } : Run).to_output
        (fun c => Except.ok c) (fun _ => true) none
      = .error "Unknown bin.name = foo" :=
  ⟨to_command_prespawn_failures.1 { bin := some (Bin.name "foo") } (fun _ => true) none
     "foo" rfl,
   to_command_prespawn_failures.2.1 { bin := some (Bin.error "boom") } (fun _ => true) none
     "boom" rfl,
   to_command_prespawn_failures.2.2.1 { bin := some (Bin.path ⟨true, ["bin", "foo"]⟩) }
     (fun _ => false) none ⟨true, ["bin", "foo"]⟩ rfl rfl,
   to_command_prespawn_failures.2.2.2 Cmd { bin := some (Bin.name "foo") }
     (fun c => Except.ok c) (fun _ => true) none "Unknown bin.name = foo"
     (to_command_prespawn_failures.1 { bin := some (Bin.name "foo") } (fun _ => true) none
       "foo" rfl)⟩

/-- C10: `TryCmd::load` rejects fixture paths whose extension is neither
`toml` nor `trycmd` with `Unsupported extension: …`, and paths with no
extension with `No extension`, producing no model. -/
theorem load_rejects_unknown_extensions :
    (∀ (w : World) (path : FsPath), path.extension = none →
       TryCmd.load w path = .error "No extension") ∧
    (∀ (w : World) (path : FsPath) (ext : String), path.extension = some ext →
       ext ≠ "toml" → ext ≠ "trycmd" →
       TryCmd.load w path = .error ("Unsupported extension: " ++ ext)) := by
  constructor
  · intro w path h
    simp [TryCmd.load, loadSeq, h, Except.map]
  · intro w path ext h h1 h2
    simp [TryCmd.load, loadSeq, h, h1, h2, Except.map]

/-- C10 witness: a path with no extension and a `.json` path both fail. -/
theorem load_rejects_unknown_extensions_witness :
    TryCmd.load
        ⟨fun _ => false, fun _ => .error "io", fun _ => .error "toml", fun _ _ => .error "io"⟩
        ⟨true, ["f", "case"]⟩
      = .error "No extension" ∧
    TryCmd.load
        ⟨fun _ => false, fun _ => .error "io", fun _ => .error "toml", fun _ _ => .error "io"⟩
        ⟨true, ["f", "case.json"]⟩
      = .error ("Unsupported extension: " ++ "json") :=
  ⟨load_rejects_unknown_extensions.1 _ _ rfl,
   load_rejects_unknown_extensions.2 _ _ "json" rfl (by decide) (by decide)⟩

/-- C8: the filesystem-resolution tail of `TryCmd::load` computes exactly:
an explicit `cwd` absolutized against the fixture's parent; `base`
defaulting to the existing `.in` sibling, else the absolutized `cwd`;
`cwd` defaulting to `base`; `sandbox` defaulting to whether the `.out`
sibling exists — and `load` applies it to the parsed fixture. -/
theorem load_filesystem_resolution :
    (∀ (w : World) (path : FsPath),
       TryCmd.load w path =
         (loadSeq w path).map fun seq =>
           { seq with fs := resolveFs path w.pathExists seq.fs }) ∧
    (∀ (path : FsPath) (disk : FsPath → Bool) (fs : Filesystem),
       resolveFs path disk fs =
         let acwd := fs.cwd.map fun c => (path.parent.getD ⟨false, ["."]⟩).join c
         let base' :=
           match fs.base with
           | some b => some b
           | none =>
             if disk (path.withExtension "in") then some (path.withExtension "in")
             else acwd
         let cwd' := match acwd with | some c => some c | none => base'
         let sandbox' :=
           match fs.sandbox with
           | some s => some s
           | none => some (disk (path.withExtension "out"))
         { cwd := cwd', base := base', sandbox := sandbox' }) := by
  constructor
  · intro w path
    rfl
  · intro path disk fs
    rcases fs with ⟨cwd, base, sandbox⟩
    rcases cwd with _ | c <;> rcases base with _ | b <;> rcases sandbox with _ | s <;>
      by_cases h1 : disk (path.withExtension "in") <;>
        simp [resolveFs, h1]

/-! ### The shlex split/join roundtrip (C9) -/

theorem trigger_of_shWs {c : Char} (h : isShWs c = true) : quoteTrigger c = true := by
  simp only [isShWs, Bool.or_eq_true, decide_eq_true_eq] at h
  rcases h with (h | h) | h <;> subst h <;> decide

theorem shStep_word_safe {c : Char} (h : quoteTrigger c = false) (acc : List Char) :
    shStep (.word acc) c = (.word (c :: acc), none) := by
  have hw : isShWs c = false := by
    cases hw : isShWs c
    · rfl
    · rw [trigger_of_shWs hw] at h
      exact absurd h (by simp)
  have hs : ¬ c = squote := fun hc => by subst hc; exact absurd h (by decide)
  have hd : ¬ c = '"' := fun hc => by subst hc; exact absurd h (by decide)
  have hb : ¬ c = '\\' := fun hc => by subst hc; exact absurd h (by decide)
  simp [shStep, hw, hs, hd, hb]

theorem shStep_delim_safe {c : Char} (h : quoteTrigger c = false) :
    shStep .delim c = (.word [c], none) := by
  have hw : isShWs c = false := by
    cases hw : isShWs c
    · rfl
    · rw [trigger_of_shWs hw] at h
      exact absurd h (by simp)
  have hh : ¬ c = '#' := fun hc => by subst hc; exact absurd h (by decide)
  have hs : ¬ c = squote := fun hc => by subst hc; exact absurd h (by decide)
  have hd : ¬ c = '"' := fun hc => by subst hc; exact absurd h (by decide)
  have hb : ¬ c = '\\' := fun hc => by subst hc; exact absurd h (by decide)
  simp [shStep, hw, hh, hs, hd, hb]

theorem shConsume_cons (st : ShState) (c : Char) (cs : List Char) :
    shConsume st (c :: cs) =
      match shStep st c with
      | (st', some w) =>
        let r := shConsume st' cs
        (r.1, w :: r.2)
      | (st', none) => shConsume st' cs := rfl

theorem shSplitGo_cons (st : ShState) (c : Char) (cs : List Char) :
    shSplitGo st (c :: cs) =
      match shStep st c with
      | (st', some w) => w :: shSplitGo st' cs
      | (st', none) => shSplitGo st' cs := rfl

theorem shConsume_word_safe {cs : List Char} (h : ∀ c ∈ cs, quoteTrigger c = false) :
    ∀ acc, shConsume (.word acc) cs = (.word (cs.reverse ++ acc), []) := by
  induction cs with
  | nil => intro acc; rfl
  | cons c cs ih =>
    intro acc
    rw [shConsume_cons, shStep_word_safe (h c (List.mem_cons_self c cs))]
    show shConsume (ShState.word (c :: acc)) cs = (ShState.word ((c :: cs).reverse ++ acc), [])
    rw [ih (fun x hx => h x (List.mem_cons_of_mem _ hx))]
    simp

theorem shConsume_dquoted_closed (w : List Char) :
    ∀ acc, shConsume (.double acc)
        ((w.flatMap (fun c => if dquoteEsc c then ['\\', c] else [c])) ++ ['"'])
      = (.word (w.reverse ++ acc), []) := by
  induction w with
  | nil => intro acc; rfl
  | cons c cs ih =>
    intro acc
    by_cases h : dquoteEsc c = true
    · have hc : (c = '$' || c = bquote || c = '"' || c = '\\') = true := by
        simpa [dquoteEsc] using h
      rw [List.flatMap_cons, if_pos h]
      rw [show ((['\\', c] ++ cs.flatMap fun x => if dquoteEsc x then ['\\', x] else [x]) ++ ['"'])
          = '\\' :: c :: ((cs.flatMap fun x => if dquoteEsc x then ['\\', x] else [x]) ++ ['"'])
        from by simp]
      rw [show ∀ rest, shConsume (ShState.double acc) ('\\' :: rest)
          = shConsume (ShState.doubleEsc acc) rest from fun rest => rfl]
      rw [shConsume_cons, show shStep (ShState.doubleEsc acc) c = (.double (c :: acc), none) by
        simp [shStep, hc]]
      show shConsume (ShState.double (c :: acc))
          ((cs.flatMap fun x => if dquoteEsc x then ['\\', x] else [x]) ++ ['"']) = _
      rw [ih]
      simp
    · have hq : ¬ c = '"' := fun hc => by subst hc; exact absurd h (by decide)
      have hb : ¬ c = '\\' := fun hc => by subst hc; exact absurd h (by decide)
      rw [List.flatMap_cons, if_neg h]
      rw [show (([c] ++ cs.flatMap fun x => if dquoteEsc x then ['\\', x] else [x]) ++ ['"'])
          = c :: ((cs.flatMap fun x => if dquoteEsc x then ['\\', x] else [x]) ++ ['"'])
        from by simp]
      rw [shConsume_cons, show shStep (ShState.double acc) c = (.double (c :: acc), none) by
        simp [shStep, hq, hb]]
      show shConsume (ShState.double (c :: acc))
          ((cs.flatMap fun x => if dquoteEsc x then ['\\', x] else [x]) ++ ['"']) = _
      rw [ih]
      simp

theorem shConsume_quoteChars (w : List Char) :
    shConsume .delim (quoteChars w) = (.word w.reverse, []) := by
  by_cases hnil : w = []
  · subst hnil
    rfl
  · by_cases htr : w.any quoteTrigger = true
    · rw [quoteChars, if_neg hnil, if_pos htr]
      rw [show ('"' :: (w.flatMap (fun c => if dquoteEsc c then ['\\', c] else [c])) ++ ['"'])
          = '"' :: ((w.flatMap (fun c => if dquoteEsc c then ['\\', c] else [c])) ++ ['"'])
        from by simp]
      rw [show ∀ cs, shConsume ShState.delim ('"' :: cs) = shConsume (ShState.double []) cs
        from fun cs => rfl]
      rw [shConsume_dquoted_closed]
      simp
    · rw [quoteChars, if_neg hnil, if_neg htr]
      have hsafe : ∀ c ∈ w, quoteTrigger c = false := by
        intro c hc
        cases hq : quoteTrigger c
        · rfl
        · exact absurd (List.any_eq_true.mpr ⟨c, hc, hq⟩) htr
      cases w with
      | nil => exact absurd rfl hnil
      | cons c cs =>
        rw [shConsume_cons, shStep_delim_safe (hsafe c (List.mem_cons_self c cs))]
        show shConsume (ShState.word [c]) cs = (ShState.word (c :: cs).reverse, [])
        rw [shConsume_word_safe (fun x hx => hsafe x (List.mem_cons_of_mem _ hx))]
        simp

theorem shSplitGo_append (xs ys : List Char) :
    ∀ st, shSplitGo st (xs ++ ys)
      = (shConsume st xs).2 ++ shSplitGo (shConsume st xs).1 ys := by
  induction xs with
  | nil => intro st; simp [shConsume]
  | cons c cs ih =>
    intro st
    rw [List.cons_append, shSplitGo_cons, shConsume_cons]
    cases hs : shStep st c with
    | mk st' emitted =>
      cases emitted <;> simp [ih]

theorem shSplitGo_joinChars (ws : List (List Char)) :
    shSplitGo .delim (joinChars ws) = ws := by
  induction ws with
  | nil => rfl
  | cons w ws ih =>
    cases ws with
    | nil =>
      show shSplitGo .delim (quoteChars w) = [w]
      rw [← List.append_nil (quoteChars w), shSplitGo_append, shConsume_quoteChars]
      simp [shSplitGo, shFinish]
    | cons w2 ws2 =>
      show shSplitGo .delim (quoteChars w ++ ' ' :: joinChars (w2 :: ws2)) = w :: w2 :: ws2
      rw [shSplitGo_append, shConsume_quoteChars]
      simp only [List.nil_append]
      rw [shSplitGo_cons, show shStep (ShState.word w.reverse) ' '
          = (.delim, some w.reverse.reverse) from rfl]
      show w.reverse.reverse :: shSplitGo ShState.delim (joinChars (w2 :: ws2)) = w :: w2 :: ws2
      rw [ih]
      simp

theorem string_data_mk (l : List Char) : (String.mk l).data = l := rfl

theorem shlex_roundtrip (xs : List String) : shlexSplit (shlexJoin xs) = xs := by
  unfold shlexSplit shlexJoin
  rw [string_data_mk, shSplitGo_joinChars, List.map_map]
  have h : String.mk ∘ String.data = id := funext (fun s => string_mk_data s)
  rw [h, List.map_id]

/-- C9: shell-quoted argument strings split by POSIX-style word-splitting
(single quotes protect spaces), and `JoinedArgs::to_string` followed by
`JoinedArgs::from_str` is the identity on every argument list. -/
theorem joined_args_roundtrip :
    JoinedArgs.fromStr ("arg1 " ++ sq ++ "arg with space" ++ sq)
      = ⟨["arg1", "arg with space"]⟩ ∧
    (∀ xs : List String, JoinedArgs.fromStr (JoinedArgs.toString ⟨xs⟩) = ⟨xs⟩) := by
  refine ⟨rfl, fun xs => ?_⟩
  show JoinedArgs.mk (shlexSplit (shlexJoin xs)) = ⟨xs⟩
  rw [shlex_roundtrip]

end Snapbox
